import Mathlib

/-!
Verification of the SuperAgent orchestration core (OpenManus).

This file shallowly embeds the code of `app/agent/superagent.py`,
`app/tool/summary.py` and the streaming loop shared with `app/api/main.py`.
Collaborators that live outside the four source files (the `ToolCollection`
upsert registry, the `MCPClients` session manager, the inner
`ToolCallAgent.think` inference call, the browser context helper) are
modelled from the specification; each such definition carries a doc
comment starting with `Modelled from the spec:`.
-/

namespace OpenManus

/-- A tool registered with the agent. `isMCP` marks remote-proxy tools
(`MCPClientTool` instances); `serverId` is the owner tag for remote tools
(empty for local tools). -/
structure Tool where
  name : String
  isMCP : Bool
  serverId : String
deriving DecidableEq, Repr

/-- The names of a list of tools, in order. -/
def toolNames (ts : List Tool) : List String :=
  ts.map (fun t => t.name)

/-- Modelled from the spec: `ToolCollection` upsert of a single tool
(spec 3, 4.2: "names are unique — registering a name already present
replaces the prior entry (last-write-wins)"; "upserts by name, preserving
first-seen order for names not previously present, replacing in place for
names that were"). The `ToolCollection` class itself is not under `src/`. -/
def addTool (ts : List Tool) (t : Tool) : List Tool :=
  if ts.any (fun u => u.name = t.name) then
    ts.map (fun u => if u.name = t.name then t else u)
  else
    ts ++ [t]

/-- Modelled from the spec: `ToolCollection.add_tools(*specs)` folds the
single-tool upsert over the given tools in order. -/
def addTools (ts : List Tool) (new : List Tool) : List Tool :=
  new.foldl addTool ts

/-- Modelled from the spec: the state of the `MCPClients` session manager
(spec 4.3): the set of open remote-server sessions and the remote-proxy
tools they contributed, each tagged with its server id. `MCPClients` is
not under `src/`. -/
structure MCPClients where
  sessions : List String
  tools : List Tool
deriving DecidableEq, Repr

/-- A remote-proxy tool contributed by server `sid` under name `n`. -/
def mkMCPTool (sid : String) (n : String) : Tool :=
  ⟨n, true, sid⟩

/-- Modelled from the spec: `MCPClients.connect_sse` / `connect_stdio`
(spec 4.3 connect): opens a session for `sid`; the remote party advertises
tool names `adv`, each tagged with `sid` and recorded as a remote-proxy
tool. -/
def mcpConnect (m : MCPClients) (sid : String) (adv : List String) : MCPClients :=
  ⟨(if m.sessions.contains sid then m.sessions else m.sessions ++ [sid]),
    m.tools ++ adv.map (mkMCPTool sid)⟩

/-- Modelled from the spec: `MCPClients.disconnect` (spec 4.3 disconnect):
closes the session if open (no-op if not connected) and evicts exactly the
tools that server contributed; with no id (empty string) tears down all
remote servers and evicts all remote-sourced tools. -/
def mcpDisconnect (m : MCPClients) (sid : String) : MCPClients :=
  if sid = "" then ⟨[], []⟩
  else ⟨m.sessions.filter (fun s => s ≠ sid), m.tools.filter (fun t => t.serverId ≠ sid)⟩

/-- A message in agent memory (`app/schema.py` Message, as used by
`superagent.py`): role, content, and the names of its tool invocations. -/
structure Msg where
  role : String
  content : String
  tool_calls : List String
deriving DecidableEq, Repr

/-- The SuperAgent state relevant to tool registration, MCP connection
management, lazy initialization and the next-step-prompt discipline
(`superagent.py` fields `available_tools`, `mcp_clients`,
`connected_servers`, `_initialized`, `next_step_prompt`, `memory`;
`browserReleased` models the browser context helper's resource state). -/
structure AgentSt where
  available_tools : List Tool
  mcp : MCPClients
  connected_servers : List (String × String)
  initialized : Bool
  browserReleased : Bool
  next_step_prompt : String
  memory : List Msg
deriving Repr

/-- Upsert into the `connected_servers` mapping (Python dict assignment
`self.connected_servers[key] = url`). -/
def upsertServer (cs : List (String × String)) (key url : String) : List (String × String) :=
  if cs.any (fun p => p.1 = key) then
    cs.map (fun p => if p.1 = key then (key, url) else p)
  else
    cs ++ [(key, url)]

/-- `SuperAgent.connect_mcp_server` (superagent.py lines 101-122): connect
the MCP client for `sid` (which registers the advertised tools `adv` into
`mcp_clients`), record the server under key `server_id or server_url`,
then add to `available_tools` exactly the `mcp_clients` tools whose
`server_id` equals `sid`. -/
def connect_mcp_server (st : AgentSt) (server_url : String) (sid : String)
    (adv : List String) : AgentSt :=
  let mcp1 := mcpConnect st.mcp sid adv
  let key := if sid = "" then server_url else sid
  let new_tools := mcp1.tools.filter (fun t => t.serverId = sid)
  { st with
      mcp := mcp1
      connected_servers := upsertServer st.connected_servers key server_url
      available_tools := addTools st.available_tools new_tools }

/-- `SuperAgent.disconnect_mcp_server` (superagent.py lines 124-139):
disconnect the MCP client for `sid` (empty string means all servers), drop
the server record, then rebuild `available_tools` from the non-MCP tools
followed by all remaining `mcp_clients` tools. -/
def disconnect_mcp_server (st : AgentSt) (sid : String) : AgentSt :=
  let mcp1 := mcpDisconnect st.mcp sid
  let cs := if sid = "" then [] else st.connected_servers.filter (fun p => p.1 ≠ sid)
  let base := st.available_tools.filter (fun t => !t.isMCP)
  { st with
      mcp := mcp1
      connected_servers := cs
      available_tools := addTools base mcp1.tools }

/-- The transport kind of a configured MCP server (superagent.py lines
81, 87: `"sse"` or `"stdio"`). -/
inductive TransportKind
  | sse
  | stdio

/-- A configured MCP server descriptor, together with the outcome of the
connection attempt to it: `Except.ok adv` means the connect succeeds and
the server advertises tool names `adv`; `Except.error e` means the
connect raises (the server is unreachable). -/
structure ServerConfig where
  id : String
  kind : TransportKind
  url : Option String
  command : Option String
  args : List String
  outcome : Except String (List String)

/-- One iteration of the configured-server loop body of
`SuperAgent.initialize_mcp_servers` (superagent.py lines 79-97), without
the surrounding try/except: `sse` servers connect only when a url is
present, `stdio` servers only when a command is present; a failing connect
surfaces the error. -/
def connectAttempt (st : AgentSt) (cfg : ServerConfig) : Except String AgentSt :=
  match cfg.kind with
  | TransportKind.sse =>
    match cfg.url with
    | some u =>
      match cfg.outcome with
      | Except.ok adv => Except.ok (connect_mcp_server st u cfg.id adv)
      | Except.error e => Except.error e
    | none => Except.ok st
  | TransportKind.stdio =>
    match cfg.command with
    | some c =>
      match cfg.outcome with
      | Except.ok adv => Except.ok (connect_mcp_server st c cfg.id adv)
      | Except.error e => Except.error e
    | none => Except.ok st

/-- The try/except around each connection attempt (superagent.py lines
80-99): a failure is logged and the state is left unchanged; no exception
escapes. -/
def attemptStep (st : AgentSt) (cfg : ServerConfig) : AgentSt :=
  match connectAttempt st cfg with
  | Except.ok st1 => st1
  | Except.error _ => st

/-- `SuperAgent.initialize_mcp_servers` (superagent.py lines 77-99):
attempt each configured server in order, each under its own try/except.
The function is total: no exception is surfaced to the caller. -/
def initialize_mcp_servers (cfg : List ServerConfig) (st : AgentSt) : AgentSt :=
  cfg.foldl attemptStep st

/-- Whether a descriptor's connection attempt actually runs and fails
(the raise-and-catch path of the loop body). -/
def connectFails (cfg : ServerConfig) : Bool :=
  match cfg.kind, cfg.outcome with
  | TransportKind.sse, Except.error _ => cfg.url.isSome
  | TransportKind.stdio, Except.error _ => cfg.command.isSome
  | _, _ => false

/-- `SuperAgent.cleanup` (superagent.py lines 141-148): the browser
context helper always exists (it is set by the model validator), so its
browser resources are released unconditionally (helper modelled from the
spec: "releases all resources held by stateful tools"); the MCP servers
are disconnected only when `_initialized` is set, after which the flag is
cleared. -/
def cleanup (st : AgentSt) : AgentSt :=
  let st1 := { st with browserReleased := true }
  if st1.initialized then
    { disconnect_mcp_server st1 "" with initialized := false }
  else st1

/-- Modelled from the spec: the name of the designated stateful browser
tool (`BrowserUseTool().name`; the tool class is not under `src/`). -/
def browserToolName : String := "browser_use"

/-- The last `n` elements of a list (Python slice `l[-n:]`). -/
def lastN (n : Nat) (l : List α) : List α :=
  l.drop (l.length - n)

/-- The browser-recency check of `SuperAgent.think` (superagent.py lines
157-163): some tool invocation among the last 3 memory entries names the
browser tool. -/
def browserInUse (st : AgentSt) : Bool :=
  (lastN 3 st.memory).any (fun m => m.tool_calls.any (fun n => n = browserToolName))

/-- The lazy-initialization prefix of `SuperAgent.think` (superagent.py
lines 152-154): if the agent is not initialized, connect the configured
MCP servers and set the flag. -/
def lazyInit (cfg : List ServerConfig) (st : AgentSt) : AgentSt :=
  if st.initialized then st
  else { initialize_mcp_servers cfg st with initialized := true }

/-- `SuperAgent.think` (superagent.py lines 150-175): lazily initialize,
save the original next-step prompt, substitute the augmented browser
prompt `aug` when the browser-recency check fires, run the inner
`ToolCallAgent.think` inference step (not under `src/`, passed as the
opaque state transformer `inner`), and restore the original prompt before
returning. -/
def think (cfg : List ServerConfig) (aug : String)
    (inner : AgentSt → AgentSt × Bool) (st : AgentSt) : AgentSt × Bool :=
  let st1 := lazyInit cfg st
  let original := st1.next_step_prompt
  let st2 := if browserInUse st1 then { st1 with next_step_prompt := aug } else st1
  let p := inner st2
  ({ p.1 with next_step_prompt := original }, p.2)

/-! ### The Summary tool (`app/tool/summary.py`) -/

/-- The message object inside a Perplexity API choice
(`res["choices"][i]["message"]`). -/
structure ApiMessage where
  content : String

/-- One choice of a Perplexity API response body. -/
structure ApiChoice where
  message : ApiMessage

/-- A parsed Perplexity API response body. -/
structure ApiBody where
  choices : List ApiChoice

/-- The outcome of the `requests.post` call in `Summary.execute`:
either the request itself raises, or a response arrives with a status
code and a body (`none` when the body is not valid JSON of the expected
shape, so that `res.json()` or the key lookups raise). -/
inductive HttpOutcome
  | failure (e : String)
  | response (status : Nat) (body : Option ApiBody)

/-- `Summary.execute` (summary.py lines 28-80): the whole request is
wrapped in a try/except that catches every exception and falls through to
`return []` (modelled as `none`); only a 200 response with a well-formed
body returns the extracted `choices[0].message.content`. -/
def summaryExecute (o : HttpOutcome) : Option String :=
  match o with
  | HttpOutcome.failure _ => none
  | HttpOutcome.response status body =>
    if status = 200 then
      match body with
      | none => none
      | some b =>
        match b.choices with
        | [] => none
        | c :: _ => some c.message.content
    else none

/-! ### The streaming loop (`SuperAgent.stream`, superagent.py lines 177-226)

The loop's collaborators (the inference call behind `think`, tool dispatch
behind `act`, and `observe`) are driven by a script of per-step outcomes.
The loop state tracks the agent's run state, the content of the last
assistant message in memory (the only part of memory the stream reads
back, via `get_last_assistant_message`), and a count of `cleanup`
invocations. The consumer closing the async generator early (which raises
GeneratorExit at a suspension point, skips the rest of the body and runs
the `finally` block) is modelled as the `close` think outcome at a step
boundary. -/

/-- The Python string, exactly: the termination sentinel
(superagent.py line 198). -/
def terminationSentinel : String := "\x7b\"status\":\"success\"\x7d"

/-- Whether a character is stripped by Python `str.strip()` (the
whitespace characters that occur in practice around a tool result). -/
def isStripWS (c : Char) : Bool :=
  c = ' ' ∨ c = '\n' ∨ c = '\t' ∨ c = '\r'

/-- Python `str.strip()`: remove leading and trailing whitespace. -/
def pyStrip (s : String) : String :=
  ⟨((s.data.dropWhile isStripWS).reverse.dropWhile isStripWS).reverse⟩

/-- The agent run state (`app/schema.py` AgentState, as consulted by the
stream loop condition). -/
inductive AgState
  | idle
  | running
  | finished
  | error
deriving DecidableEq, Repr

/-- An event yielded by the stream: a `content` or an `error` payload
(superagent.py lines 194, 204, 212, 218, 222). -/
inductive Event
  | content (s : String)
  | error (s : String)
deriving DecidableEq, Repr

/-- Whether an event is a content event. -/
def isContent : Event → Bool
  | Event.content _ => true
  | Event.error _ => false

/-- Whether an event is an error event. -/
def isErrorEv : Event → Bool
  | Event.content _ => false
  | Event.error _ => true

/-- The outcome of one `think()` call as seen by the stream: an exception
(caught only by the stream's outer handler), the consumer closing the
generator at this suspension point, or a normal return, carrying the
content of the assistant message appended to memory (if one was) and the
boolean result. -/
inductive ThinkOut
  | raise (m : String)
  | close
  | ret (asst : Option String) (proceed : Bool)

/-- The outcome of one `act()` call: an exception (caught by the inner
handler at superagent.py line 202) or a returned result string (empty
string plays Python's falsy role at line 193). -/
inductive ActOut
  | raise (m : String)
  | ret (r : String)

/-- The outcome of one `observe()` call: an exception (caught at
superagent.py line 210) or a normal return. -/
inductive ObsOut
  | raise (m : String)
  | ok

/-- The scripted outcomes of the collaborators for one loop iteration. -/
structure StepB where
  think : ThinkOut
  act : ActOut
  obs : ObsOut

/-- The loop state threaded through the stream: the agent run state, the
content of the last assistant message in memory, and the number of times
`cleanup` has been invoked. -/
structure LoopSt where
  state : AgState
  lastAsst : Option String
  cleanups : Nat
deriving DecidableEq, Repr

/-- Record the assistant message appended by a think step. -/
def updLast (st : LoopSt) (asst : Option String) : LoopSt :=
  match asst with
  | none => st
  | some c => { st with lastAsst := some c }

/-- How the while loop was exited. -/
inductive ExitKind
  | scriptEnd
  | stateStop
  | thinkFalse
  | thinkRaise (m : String)
  | closed
  | actRaise (m : String)
  | sentinelBreak
  | obsRaise (m : String)
deriving DecidableEq, Repr

/-- The result of running the loop (or the whole stream): the events
yielded, the final loop state, and the exit kind. -/
structure LoopOut where
  events : List Event
  st : LoopSt
  exit : ExitKind
deriving DecidableEq, Repr

/-- The while loop of `SuperAgent.stream` (superagent.py lines 185-213):
check the run state; run `think` (line 187; an exception propagates to
the outer handler, `False` breaks); run `act` under its own handler
(lines 191-205: yield the result as a content event when non-empty, break
when the stripped result equals the termination sentinel, yield an error
event and break on an exception); run `observe` under its own handler
(lines 207-213). The move to FINISHED on a result whose content is
exactly the sentinel is modelled from the spec (4.1 act: "A result whose
content is exactly the literal ... moves Agent to FINISHED"); the
`ToolCallAgent`/`Terminate` code that performs it is not under `src/`. -/
def streamLoop : List StepB → LoopSt → LoopOut
  | [], st => ⟨[], st, ExitKind.scriptEnd⟩
  | b :: rest, st =>
    if st.state = AgState.finished ∨ st.state = AgState.error then
      ⟨[], st, ExitKind.stateStop⟩
    else
      match b.think with
      | ThinkOut.raise m => ⟨[], st, ExitKind.thinkRaise m⟩
      | ThinkOut.close => ⟨[], st, ExitKind.closed⟩
      | ThinkOut.ret asst proceed =>
        let st1 := updLast st asst
        if proceed then
          match b.act with
          | ActOut.raise m => ⟨[Event.error m], st1, ExitKind.actRaise m⟩
          | ActOut.ret r =>
            let st2 := if r = terminationSentinel then
                { st1 with state := AgState.finished } else st1
            if r = "" then
              match b.obs with
              | ObsOut.raise m => ⟨[Event.error m], st2, ExitKind.obsRaise m⟩
              | ObsOut.ok =>
                let o := streamLoop rest st2
                ⟨o.events, o.st, o.exit⟩
            else
              if pyStrip r = terminationSentinel then
                ⟨[Event.content r], st2, ExitKind.sentinelBreak⟩
              else
                match b.obs with
                | ObsOut.raise m => ⟨[Event.content r, Event.error m], st2, ExitKind.obsRaise m⟩
                | ObsOut.ok =>
                  let o := streamLoop rest st2
                  ⟨Event.content r :: o.events, o.st, o.exit⟩
        else ⟨[], st1, ExitKind.thinkFalse⟩

/-- One `cleanup()` invocation, as counted by the loop state. -/
def runCleanup (st : LoopSt) : LoopSt :=
  { st with cleanups := st.cleanups + 1 }

/-- The final flush of `SuperAgent.stream` (superagent.py lines 216-218):
yield the last assistant message's content when present and non-empty. -/
def flushEvents (st : LoopSt) : List Event :=
  match st.lastAsst with
  | some c => if c = "" then [] else [Event.content c]
  | none => []

/-- `SuperAgent.stream` (superagent.py lines 177-226): run the while
loop; an exception escaping it (one raised by `think`) is converted by
the outer handler into a single error event and skips the final flush; a
consumer close (GeneratorExit, not caught by `except Exception`) skips
both the flush and the handler; every other exit falls through to the
final flush. The `finally` block invokes `cleanup` exactly once on every
path. -/
def stream (script : List StepB) (st0 : LoopSt) : LoopOut :=
  let o := streamLoop script st0
  match o.exit with
  | ExitKind.thinkRaise m =>
    ⟨o.events ++ [Event.error m], runCleanup o.st, ExitKind.thinkRaise m⟩
  | ExitKind.closed => ⟨o.events, runCleanup o.st, ExitKind.closed⟩
  | e => ⟨o.events ++ flushEvents o.st, runCleanup o.st, e⟩

/-! ### Helper lemmas about the streaming loop -/

/-- The error event (if any) an exit kind contributes to the loop's
event list. -/
def errOfExit : ExitKind → List Event
  | ExitKind.actRaise m => [Event.error m]
  | ExitKind.obsRaise m => [Event.error m]
  | _ => []

theorem updLast_state (st : LoopSt) (a : Option String) :
    (updLast st a).state = st.state := by
  cases a <;> rfl

theorem updLast_cleanups (st : LoopSt) (a : Option String) :
    (updLast st a).cleanups = st.cleanups := by
  cases a <;> rfl

theorem streamLoop_cleanups (script : List StepB) (st : LoopSt) :
    (streamLoop script st).st.cleanups = st.cleanups := by
  induction script generalizing st with
  | nil => rfl
  | cons b rest ih =>
    simp only [streamLoop]
    split
    · rfl
    · cases b.think with
      | raise m => rfl
      | close => rfl
      | ret asst proceed =>
        dsimp only
        split
        · cases b.act with
          | raise m => simp [updLast_cleanups]
          | ret r =>
            dsimp only
            split
            · cases b.obs with
              | raise m =>
                dsimp only
                split_ifs <;> simp [updLast_cleanups]
              | ok =>
                dsimp only
                split_ifs <;> simp [ih, updLast_cleanups]
            · cases b.obs with
              | raise m =>
                dsimp only
                split_ifs <;> simp [updLast_cleanups]
              | ok =>
                dsimp only
                split_ifs <;> simp [ih, updLast_cleanups]
        · simp [updLast_cleanups]

theorem stream_exit (script : List StepB) (st : LoopSt) :
    (stream script st).exit = (streamLoop script st).exit := by
  simp only [stream]
  split <;> simp_all

theorem stream_cleanups (script : List StepB) (st : LoopSt) :
    (stream script st).st.cleanups = st.cleanups + 1 := by
  simp only [stream]
  split <;> simp [runCleanup, streamLoop_cleanups]

theorem streamLoop_shape (script : List StepB) (st : LoopSt) :
    ∃ pre, (streamLoop script st).events
        = pre ++ errOfExit (streamLoop script st).exit
      ∧ pre.all isContent = true := by
  induction script generalizing st with
  | nil => exact ⟨[], rfl, rfl⟩
  | cons b rest ih =>
    simp only [streamLoop]
    split
    · exact ⟨[], rfl, rfl⟩
    · cases b.think with
      | raise m => exact ⟨[], rfl, rfl⟩
      | close => exact ⟨[], rfl, rfl⟩
      | ret asst proceed =>
        dsimp only
        split
        · cases b.act with
          | raise m => exact ⟨[], rfl, rfl⟩
          | ret r =>
            dsimp only
            split
            · cases b.obs with
              | raise m => exact ⟨[], rfl, rfl⟩
              | ok =>
                dsimp only
                obtain ⟨pre, h1, h2⟩ := ih (if r = terminationSentinel then
                  { updLast st asst with state := AgState.finished } else updLast st asst)
                exact ⟨pre, h1, h2⟩
            · split
              · exact ⟨[Event.content r], rfl, rfl⟩
              · cases b.obs with
                | raise m => exact ⟨[Event.content r], rfl, rfl⟩
                | ok =>
                  dsimp only
                  obtain ⟨pre, h1, h2⟩ := ih (if r = terminationSentinel then
                    { updLast st asst with state := AgState.finished } else updLast st asst)
                  refine ⟨Event.content r :: pre, ?_, ?_⟩
                  · simp [h1]
                  · simp [h2, isContent]
        · exact ⟨[], rfl, rfl⟩

theorem all_content_no_error (l : List Event) (h : l.all isContent = true) :
    l.filter isErrorEv = [] := by
  induction l with
  | nil => rfl
  | cons e rest ih =>
    simp only [List.all_cons, Bool.and_eq_true] at h
    cases e with
    | content s => simpa [List.filter, isErrorEv] using ih h.2
    | error s => simp [isContent] at h

theorem streamLoop_sentinel (script : List StepB) (st : LoopSt)
    (h : (streamLoop script st).exit = ExitKind.sentinelBreak) :
    ∃ pre r, (streamLoop script st).events = pre ++ [Event.content r]
      ∧ pre.all isContent = true
      ∧ r ≠ "" ∧ pyStrip r = terminationSentinel
      ∧ ((streamLoop script st).st.state = AgState.finished ↔ r = terminationSentinel) := by
  induction script generalizing st with
  | nil => exact absurd h (by simp [streamLoop])
  | cons b rest ih =>
    rw [streamLoop] at h ⊢
    split at h
    · exact absurd h (by simp)
    · rename_i hguard
      rw [if_neg hguard]
      cases hb : b.think with
      | raise m => rw [hb] at h; simp at h
      | close => rw [hb] at h; simp at h
      | ret asst proceed =>
        rw [hb] at h
        dsimp only at h ⊢
        split at h
        · rename_i hproceed
          rw [if_pos hproceed]
          cases hact : b.act with
          | raise m => rw [hact] at h; simp at h
          | ret r =>
            rw [hact] at h
            dsimp only at h ⊢
            split at h
            · rename_i hre
              rw [if_pos hre]
              cases hobs : b.obs with
              | raise m => rw [hobs] at h; simp at h
              | ok =>
                rw [hobs] at h
                dsimp only at h ⊢
                exact ih _ h
            · rename_i hre
              rw [if_neg hre]
              split at h
              · rename_i hstrip
                rw [if_pos hstrip]
                refine ⟨[], r, rfl, rfl, fun hc => hre hc, hstrip, ?_⟩
                dsimp only
                split
                · rename_i hr
                  simp [hr]
                · rename_i hr
                  simp only [updLast_state]
                  constructor
                  · intro hfin
                    exact absurd (Or.inl hfin) hguard
                  · intro hc
                    exact absurd hc hr
              · rename_i hstrip
                rw [if_neg hstrip]
                cases hobs : b.obs with
                | raise m => rw [hobs] at h; simp at h
                | ok =>
                  rw [hobs] at h
                  dsimp only at h ⊢
                  obtain ⟨pre, r1, h1, h2, h3, h4, h5⟩ := ih _ h
                  exact ⟨Event.content r :: pre, r1, by simp [h1], by simp [h2, isContent],
                    h3, h4, h5⟩
        · rename_i hproceed
          rw [if_neg hproceed]
          simp at h

theorem runCleanup_state (st : LoopSt) : (runCleanup st).state = st.state := rfl

theorem flushEvents_all (st : LoopSt) :
    (flushEvents st).all isContent = true ∧ (flushEvents st).length ≤ 1 := by
  unfold flushEvents
  cases st.lastAsst with
  | none => simp
  | some c =>
    dsimp only
    split_ifs <;> simp [isContent]

theorem stream_of_actRaise (script : List StepB) (st : LoopSt) (m : String)
    (h : (streamLoop script st).exit = ExitKind.actRaise m) :
    stream script st
      = ⟨(streamLoop script st).events ++ flushEvents (streamLoop script st).st,
         runCleanup (streamLoop script st).st, ExitKind.actRaise m⟩ := by
  simp only [stream]
  rw [h]

theorem stream_of_sentinel (script : List StepB) (st : LoopSt)
    (h : (streamLoop script st).exit = ExitKind.sentinelBreak) :
    stream script st
      = ⟨(streamLoop script st).events ++ flushEvents (streamLoop script st).st,
         runCleanup (streamLoop script st).st, ExitKind.sentinelBreak⟩ := by
  simp only [stream]
  rw [h]

/-! ### Claims C1-C3 -/

/-- The loop-state a `stream` call starts from: the agent is idle, no
assistant message has been recorded, and cleanup has not run. -/
def initLoopSt : LoopSt := ⟨AgState.idle, none, 0⟩

/-- The events following the first error event of a stream. -/
def afterFirstError : List Event → List Event
  | [] => []
  | Event.error _ :: rest => rest
  | Event.content _ :: rest => afterFirstError rest

/-- C1 (amended): for every run in which `act()` raises, the stream emits
exactly one error event, every event before it is a content event, at
most one content event (the final flush of the last assistant message)
follows it, and cleanup is invoked exactly once. -/
theorem stream_act_error_events (script : List StepB) (st : LoopSt) (m : String)
    (h : (stream script st).exit = ExitKind.actRaise m) :
    ∃ pre post,
      (stream script st).events = pre ++ Event.error m :: post
      ∧ pre.all isContent = true
      ∧ post.all isContent = true
      ∧ post.length ≤ 1
      ∧ (stream script st).events.filter isErrorEv = [Event.error m]
      ∧ (stream script st).st.cleanups = st.cleanups + 1 := by
  have hx : (streamLoop script st).exit = ExitKind.actRaise m := by
    rw [← stream_exit]; exact h
  obtain ⟨pre, hev, hall⟩ := streamLoop_shape script st
  rw [hx] at hev
  have hs := stream_of_actRaise script st m hx
  refine ⟨pre, flushEvents (streamLoop script st).st, ?_, hall,
    (flushEvents_all _).1, (flushEvents_all _).2, ?_, stream_cleanups script st⟩
  · rw [hs]
    dsimp only
    rw [hev]
    simp [errOfExit]
  · rw [hs]
    dsimp only
    rw [hev]
    simp [List.filter_append, all_content_no_error pre hall,
      all_content_no_error _ (flushEvents_all (streamLoop script st).st).1,
      isErrorEv, errOfExit]

/-- C1: a concrete run refuting the claim as stated: `act` raises, the
stream emits the error event, and then still emits a further content
event (the final flush of the assistant message recorded by `think`). -/
def c1CexScript : List StepB :=
  [⟨ThinkOut.ret (some "thinking") true, ActOut.raise "boom", ObsOut.ok⟩]

/-- C1: counterexample. In the run `c1CexScript` the `act` step raises,
yet a content event is emitted after the error event, contradicting
"then no further content events". -/
theorem stream_act_error_flush_cex :
    (stream c1CexScript initLoopSt).exit = ExitKind.actRaise "boom"
    ∧ (stream c1CexScript initLoopSt).events
        = [Event.error "boom", Event.content "thinking"]
    ∧ ((afterFirstError (stream c1CexScript initLoopSt).events).any isContent) = true := by
  refine ⟨by decide, by decide, by decide⟩

/-- C1: the script of the witness run: `act` raises with no assistant
message recorded, so no flush follows. -/
def c1WitScript : List StepB :=
  [⟨ThinkOut.ret none true, ActOut.raise "w", ObsOut.ok⟩]

/-- C1: witness instantiating the amended theorem at a concrete run. -/
theorem stream_act_error_events_witness :
    ∃ pre post,
      (stream c1WitScript initLoopSt).events = pre ++ Event.error "w" :: post
      ∧ pre.all isContent = true
      ∧ post.all isContent = true
      ∧ post.length ≤ 1
      ∧ (stream c1WitScript initLoopSt).events.filter isErrorEv = [Event.error "w"]
      ∧ (stream c1WitScript initLoopSt).st.cleanups = initLoopSt.cleanups + 1 :=
  stream_act_error_events c1WitScript initLoopSt "w" (by decide)

/-- C2 (amended): for every run that exits through the stream's
termination check, the triggering tool result `r` is non-empty and strips
(leading/trailing whitespace removed) to the literal sentinel, a content
event carrying `r` is emitted before the terminal marker, the agent ends
in FINISHED precisely when `r` is exactly the literal sentinel, and
cleanup runs exactly once. -/
theorem stream_sentinel_break (script : List StepB) (st : LoopSt)
    (h : (stream script st).exit = ExitKind.sentinelBreak) :
    ∃ pre r post,
      (stream script st).events = pre ++ Event.content r :: post
      ∧ pre.all isContent = true
      ∧ post.length ≤ 1
      ∧ r ≠ ""
      ∧ pyStrip r = terminationSentinel
      ∧ ((stream script st).st.state = AgState.finished ↔ r = terminationSentinel)
      ∧ (stream script st).st.cleanups = st.cleanups + 1 := by
  have hx : (streamLoop script st).exit = ExitKind.sentinelBreak := by
    rw [← stream_exit]; exact h
  obtain ⟨pre, r, hev, hall, hr, hstrip, hiff⟩ := streamLoop_sentinel script st hx
  have hs := stream_of_sentinel script st hx
  refine ⟨pre, r, flushEvents (streamLoop script st).st, ?_, hall,
    (flushEvents_all _).2, hr, hstrip, ?_, stream_cleanups script st⟩
  · rw [hs]
    dsimp only
    rw [hev]
    simp
  · rw [hs]
    dsimp only
    rw [runCleanup_state]
    exact hiff

/-- C2: the script of the counterexample run: the tool result is the
sentinel padded with a leading space, not exactly the literal. -/
def c2CexScript : List StepB :=
  [⟨ThinkOut.ret none true, ActOut.ret (" " ++ terminationSentinel), ObsOut.ok⟩]

/-- C2: counterexample to the claim as stated. A tool result that is the
sentinel padded with whitespace (so not exactly the literal text) still
ends the loop through the termination check, and the run does not end in
FINISHED. -/
theorem stream_sentinel_strip_cex :
    (stream c2CexScript initLoopSt).exit = ExitKind.sentinelBreak
    ∧ (" " ++ terminationSentinel) ≠ terminationSentinel
    ∧ (stream c2CexScript initLoopSt).st.state ≠ AgState.finished := by
  refine ⟨by decide, by decide, by decide⟩

/-- C2: the script of the witness run: the tool result is exactly the
sentinel. -/
def c2WitScript : List StepB :=
  [⟨ThinkOut.ret (some "done") true, ActOut.ret terminationSentinel, ObsOut.ok⟩]

/-- C2: witness instantiating the amended theorem at a run whose tool
result is exactly the sentinel. -/
theorem stream_sentinel_break_witness :
    ∃ pre r post,
      (stream c2WitScript initLoopSt).events = pre ++ Event.content r :: post
      ∧ pre.all isContent = true
      ∧ post.length ≤ 1
      ∧ r ≠ ""
      ∧ pyStrip r = terminationSentinel
      ∧ ((stream c2WitScript initLoopSt).st.state = AgState.finished
          ↔ r = terminationSentinel)
      ∧ (stream c2WitScript initLoopSt).st.cleanups = initLoopSt.cleanups + 1 :=
  stream_sentinel_break c2WitScript initLoopSt (by decide)

/-- C3: regardless of the path taken to loop exit (termination sentinel,
exception in think/act/observe, the scripted budget running out, the
agent state already being terminal, or the consumer closing the generator
early), the stream invokes `cleanup` exactly once. -/
theorem stream_cleanup_exactly_once (script : List StepB) (st : LoopSt) :
    (stream script st).st.cleanups = st.cleanups + 1 :=
  stream_cleanups script st

/-! ### Helper lemmas about the tool registry -/

theorem toolNames_cons (t : Tool) (ts : List Tool) :
    toolNames (t :: ts) = t.name :: toolNames ts := rfl

theorem toolNames_append (a b : List Tool) :
    toolNames (a ++ b) = toolNames a ++ toolNames b := by
  simp [toolNames]

theorem addTool_fresh (ts : List Tool) (t : Tool) (h : t.name ∉ toolNames ts) :
    addTool ts t = ts ++ [t] := by
  unfold addTool
  rw [if_neg]
  intro hany
  rw [List.any_eq_true] at hany
  obtain ⟨u, hu, he⟩ := hany
  simp only [decide_eq_true_eq] at he
  exact h (by simp only [toolNames, List.mem_map]; exact ⟨u, hu, he⟩)

theorem addTools_nil (ts : List Tool) : addTools ts [] = ts := rfl

theorem addTools_fresh (ts new : List Tool)
    (hnd : (toolNames new).Nodup)
    (hfr : ∀ t ∈ new, t.name ∉ toolNames ts) :
    addTools ts new = ts ++ new := by
  induction new generalizing ts with
  | nil => simp [addTools]
  | cons t rest ih =>
    rw [toolNames_cons, List.nodup_cons] at hnd
    have step : addTools ts (t :: rest) = addTools (addTool ts t) rest := rfl
    rw [step, addTool_fresh ts t (hfr t (by simp)), ih (ts ++ [t]) hnd.2 ?_]
    · simp
    · intro u hu
      rw [toolNames_append]
      simp only [List.mem_append, toolNames, List.map_cons, List.map_nil,
        List.mem_singleton, not_or]
      refine ⟨hfr u (by simp [hu]), ?_⟩
      intro he
      exact hnd.1 (he ▸ List.mem_map_of_mem (fun t => t.name) hu)

theorem toolNames_mkMCP (sid : String) (adv : List String) :
    toolNames (adv.map (mkMCPTool sid)) = adv := by
  simp only [toolNames, List.map_map]
  exact List.map_id'' (fun n => rfl) adv

theorem filter_mkMCP_own (sid : String) (adv : List String) :
    (adv.map (mkMCPTool sid)).filter (fun t => t.serverId = sid)
      = adv.map (mkMCPTool sid) := by
  rw [List.filter_eq_self]
  intro t ht
  obtain ⟨n, _, hn⟩ := List.mem_map.mp ht
  simp [← hn, mkMCPTool]

theorem filter_mkMCP_other (sid : String) (adv : List String) :
    (adv.map (mkMCPTool sid)).filter (fun t => t.serverId ≠ sid) = [] := by
  rw [List.filter_eq_nil_iff]
  intro t ht
  obtain ⟨n, _, hn⟩ := List.mem_map.mp ht
  simp [← hn, mkMCPTool]

theorem filter_mkMCP_local (sid : String) (adv : List String) :
    (adv.map (mkMCPTool sid)).filter (fun t => !t.isMCP) = [] := by
  rw [List.filter_eq_nil_iff]
  intro t ht
  obtain ⟨n, _, hn⟩ := List.mem_map.mp ht
  simp [← hn, mkMCPTool]

theorem filter_not_own (sid : String) (ts : List Tool)
    (h : ∀ t ∈ ts, t.serverId ≠ sid) :
    ts.filter (fun t => t.serverId = sid) = [] := by
  rw [List.filter_eq_nil_iff]
  intro t ht
  simpa using h t ht

theorem filter_keep_other (sid : String) (ts : List Tool)
    (h : ∀ t ∈ ts, t.serverId ≠ sid) :
    ts.filter (fun t => t.serverId ≠ sid) = ts := by
  rw [List.filter_eq_self]
  intro t ht
  simpa using h t ht

/-! ### Claims C5 and C7 -/

theorem connect_adds_exactly_aux (st : AgentSt) (url sid : String) (adv : List String)
    (hadvnd : adv.Nodup)
    (hadvfresh : ∀ n ∈ adv, n ∉ toolNames st.available_tools)
    (hsidfresh : ∀ t ∈ st.mcp.tools, t.serverId ≠ sid) :
    (connect_mcp_server st url sid adv).available_tools
        = st.available_tools ++ adv.map (mkMCPTool sid)
    ∧ (connect_mcp_server st url sid adv).mcp.tools
        = st.mcp.tools ++ adv.map (mkMCPTool sid) := by
  unfold connect_mcp_server mcpConnect
  dsimp only
  refine ⟨?_, rfl⟩
  rw [List.filter_append, filter_not_own sid st.mcp.tools hsidfresh,
    filter_mkMCP_own, List.nil_append]
  apply addTools_fresh
  · rw [toolNames_mkMCP]; exact hadvnd
  · intro t ht
    obtain ⟨n, hn, he⟩ := List.mem_map.mp ht
    have : t.name = n := by simp [← he, mkMCPTool]
    rw [this]
    exact hadvfresh n hn

/-- C7 (amended): a successful `connect_mcp_server` whose advertised tool
names are fresh (pairwise distinct, unused in the registry) and whose
server id owns no pre-existing remote tool adds to the registry exactly
the advertised tools, each tagged with the server id, appended after the
existing tools, which are left untouched; the MCP client records exactly
the same tools. -/
theorem connect_adds_exactly (st : AgentSt) (url sid : String) (adv : List String)
    (hadvnd : adv.Nodup)
    (hadvfresh : ∀ n ∈ adv, n ∉ toolNames st.available_tools)
    (hsidfresh : ∀ t ∈ st.mcp.tools, t.serverId ≠ sid) :
    (connect_mcp_server st url sid adv).available_tools
        = st.available_tools ++ adv.map (mkMCPTool sid)
    ∧ (connect_mcp_server st url sid adv).mcp.tools
        = st.mcp.tools ++ adv.map (mkMCPTool sid) :=
  connect_adds_exactly_aux st url sid adv hadvnd hadvfresh hsidfresh

/-- C7: the state of the counterexample run: a single local tool named
`dup`, no remote connections. -/
def c7CexSt : AgentSt :=
  ⟨[⟨"dup", false, ""⟩], ⟨[], []⟩, [], false, false, "NEXT", []⟩

/-- C7: counterexample to the claim as stated. When the server advertises
a tool name that collides with a local tool, the `ToolCollection` upsert
replaces the local tool in place, so the connect modifies a local tool:
the set of local (non-MCP) tools is not preserved. -/
theorem connect_modifies_local_cex :
    ¬ ((connect_mcp_server c7CexSt "u" "s" ["dup"]).available_tools.filter
          (fun t => !t.isMCP)
        = c7CexSt.available_tools.filter (fun t => !t.isMCP)) := by
  decide

/-- C7: the state of the witness run: one local tool, one already
connected server `other` owning one tool. -/
def c7WitSt : AgentSt :=
  ⟨[⟨"local1", false, ""⟩, ⟨"ot", true, "other"⟩], ⟨["other"], [⟨"ot", true, "other"⟩]⟩,
    [("other", "u0")], true, false, "NEXT", []⟩

/-- C7: witness instantiating the amended theorem at a concrete connect. -/
theorem connect_adds_exactly_witness :
    (connect_mcp_server c7WitSt "u" "s" ["t1", "t2"]).available_tools
        = c7WitSt.available_tools ++ ["t1", "t2"].map (mkMCPTool "s")
    ∧ (connect_mcp_server c7WitSt "u" "s" ["t1", "t2"]).mcp.tools
        = c7WitSt.mcp.tools ++ ["t1", "t2"].map (mkMCPTool "s") :=
  connect_adds_exactly c7WitSt "u" "s" ["t1", "t2"] (by decide) (by decide) (by decide)

/-- C5 (amended): under the consistency invariant (the registry is the
local tools followed by exactly the MCP client's tools, names pairwise
distinct) and freshness of the connected server's id and advertised names,
(i) `disconnect(sid)` after `connect(sid, …)` removes exactly the tool
names that connect contributed, restoring the registry;
(ii) disconnecting a never-connected id leaves the registry unchanged
(and raises no error: the operation is total);
(iii) disconnecting with no id evicts exactly the remote-sourced tools,
leaving the local tools untouched. -/
theorem disconnect_after_connect (st : AgentSt) (url sid sid2 : String)
    (adv : List String)
    (hcons : st.available_tools
        = st.available_tools.filter (fun t => !t.isMCP) ++ st.mcp.tools)
    (hnd : (toolNames st.available_tools).Nodup)
    (hsid : sid ≠ "")
    (hsidfresh : ∀ t ∈ st.mcp.tools, t.serverId ≠ sid)
    (hadvnd : adv.Nodup)
    (hadvfresh : ∀ n ∈ adv, n ∉ toolNames st.available_tools)
    (hsid2 : sid2 ≠ "")
    (hsid2fresh : ∀ t ∈ st.mcp.tools, t.serverId ≠ sid2) :
    (disconnect_mcp_server (connect_mcp_server st url sid adv) sid).available_tools
        = st.available_tools
    ∧ (disconnect_mcp_server st sid2).available_tools = st.available_tools
    ∧ (disconnect_mcp_server st "").available_tools
        = st.available_tools.filter (fun t => !t.isMCP) := by
  have hbase : addTools (st.available_tools.filter (fun t => !t.isMCP)) st.mcp.tools
      = st.available_tools := by
    rw [addTools_fresh]
    · exact hcons.symm
    · have := hnd
      rw [hcons, toolNames_append] at this
      exact ((List.nodup_append.mp this).2).1
    · intro t ht
      have := hnd
      rw [hcons, toolNames_append] at this
      intro hmem
      exact (List.nodup_append.mp this).2.2 hmem (List.mem_map_of_mem (fun t => t.name) ht)
  obtain ⟨hav1, hmcp1⟩ := connect_adds_exactly_aux st url sid adv hadvnd hadvfresh hsidfresh
  refine ⟨?_, ?_, ?_⟩
  · unfold disconnect_mcp_server mcpDisconnect
    rw [if_neg hsid]
    dsimp only
    rw [hav1, hmcp1, List.filter_append, List.filter_append,
      filter_keep_other sid st.mcp.tools hsidfresh, filter_mkMCP_other,
      List.append_nil, filter_mkMCP_local, List.append_nil]
    exact hbase
  · unfold disconnect_mcp_server mcpDisconnect
    rw [if_neg hsid2]
    dsimp only
    rw [filter_keep_other sid2 st.mcp.tools hsid2fresh]
    exact hbase
  · unfold disconnect_mcp_server mcpDisconnect
    rw [if_pos rfl]
    dsimp only
    rw [addTools_nil]

/-- C5: the state of the counterexample run: one local tool named `dup`
and no remote connections. -/
def c5CexSt : AgentSt :=
  ⟨[⟨"dup", false, ""⟩], ⟨[], []⟩, [], false, false, "NEXT", []⟩

/-- C5: counterexample to the claim as stated. When the connected server
advertises a name colliding with a local tool, the connect replaces the
local tool in place and the disconnect then evicts the name entirely: the
local tool is not left untouched by the connect/disconnect pair. -/
theorem disconnect_loses_local_cex :
    ¬ ((disconnect_mcp_server (connect_mcp_server c5CexSt "u" "s" ["dup"]) "s").available_tools.filter
          (fun t => !t.isMCP)
        = c5CexSt.available_tools.filter (fun t => !t.isMCP)) := by
  decide

/-- C5: the state of the witness run: one local tool and one already
connected server `other`, consistent and duplicate-free. -/
def c5WitSt : AgentSt :=
  ⟨[⟨"local1", false, ""⟩, ⟨"ot", true, "other"⟩], ⟨["other"], [⟨"ot", true, "other"⟩]⟩,
    [("other", "u0")], true, false, "NEXT", []⟩

/-- C5: witness instantiating the amended theorem at a concrete
connect/disconnect round trip. -/
theorem disconnect_after_connect_witness :
    (disconnect_mcp_server (connect_mcp_server c5WitSt "u" "s" ["t1"]) "s").available_tools
        = c5WitSt.available_tools
    ∧ (disconnect_mcp_server c5WitSt "never").available_tools = c5WitSt.available_tools
    ∧ (disconnect_mcp_server c5WitSt "").available_tools
        = c5WitSt.available_tools.filter (fun t => !t.isMCP) :=
  disconnect_after_connect c5WitSt "u" "s" "never" ["t1"] (by decide) (by decide)
    (by decide) (by decide) (by decide) (by decide) (by decide) (by decide)

/-! ### Claim C6 -/

theorem attemptStep_of_fails (st : AgentSt) (cfg : ServerConfig)
    (h : connectFails cfg = true) : attemptStep st cfg = st := by
  rcases cfg with ⟨id, kind, url, command, args, outcome⟩
  cases kind <;> cases outcome <;> cases url <;> cases command <;>
    simp_all [attemptStep, connectAttempt, connectFails]

/-- C6: the bulk initialization attempts each configured server
independently: a failing entry leaves the state unchanged and does not
abort the remaining entries, so the result is the same as initializing
without the failing entry; the function is total, so no exception is
surfaced to the caller. -/
theorem initialize_isolates_failure (pre post : List ServerConfig)
    (bad : ServerConfig) (st : AgentSt) (h : connectFails bad = true) :
    initialize_mcp_servers (pre ++ bad :: post) st
        = initialize_mcp_servers post (initialize_mcp_servers pre st)
    ∧ initialize_mcp_servers (pre ++ bad :: post) st
        = initialize_mcp_servers (pre ++ post) st := by
  constructor
  · unfold initialize_mcp_servers
    rw [List.foldl_append, List.foldl_cons, attemptStep_of_fails _ bad h]
  · unfold initialize_mcp_servers
    rw [List.foldl_append, List.foldl_cons, attemptStep_of_fails _ bad h,
      List.foldl_append]

/-- C6: a reachable sse server advertising one tool. -/
def c6Good1 : ServerConfig :=
  ⟨"g1", TransportKind.sse, some "u1", none, [], Except.ok ["t1"]⟩

/-- C6: an unreachable sse server (its connection attempt raises). -/
def c6Bad : ServerConfig :=
  ⟨"b", TransportKind.sse, some "u2", none, [], Except.error "unreachable"⟩

/-- C6: a reachable stdio server advertising one tool. -/
def c6Good2 : ServerConfig :=
  ⟨"g2", TransportKind.stdio, none, some "cmd", ["-x"], Except.ok ["t2"]⟩

/-- C6: the agent state the witness initialization starts from. -/
def c6St : AgentSt :=
  ⟨[⟨"local1", false, ""⟩], ⟨[], []⟩, [], false, false, "NEXT", []⟩

/-- C6: witness instantiating the theorem at a configuration with one
unreachable server between two reachable ones. -/
theorem initialize_isolates_failure_witness :
    initialize_mcp_servers ([c6Good1] ++ c6Bad :: [c6Good2]) c6St
        = initialize_mcp_servers [c6Good2] (initialize_mcp_servers [c6Good1] c6St)
    ∧ initialize_mcp_servers ([c6Good1] ++ c6Bad :: [c6Good2]) c6St
        = initialize_mcp_servers ([c6Good1] ++ [c6Good2]) c6St :=
  initialize_isolates_failure [c6Good1] [c6Good2] c6Bad c6St (by decide)

/-! ### Claim C8 -/

/-- C8 (amended): `cleanup` is idempotent and total (safe on a
never-initialized agent), always releases the browser resources, and --
provided the agent was initialized -- closes every remote-server session,
evicts all remote tools, clears the server table and resets the
initialized flag. On an agent whose servers were connected without
initialization the sessions are not closed (see the counterexample). -/
theorem cleanup_idempotent_and_closes (st : AgentSt) :
    cleanup (cleanup st) = cleanup st
    ∧ (cleanup st).browserReleased = true
    ∧ (st.initialized = true →
        (cleanup st).mcp.sessions = [] ∧ (cleanup st).mcp.tools = []
        ∧ (cleanup st).connected_servers = [] ∧ (cleanup st).initialized = false) := by
  rcases st with ⟨av, mcp, cs, init, br, prompt, mem⟩
  cases init <;>
    simp [cleanup, disconnect_mcp_server, mcpDisconnect, addTools]

/-- C8: the agent state of the counterexample: a server was connected on
a raw (never-initialized) agent. -/
def c8CexSt : AgentSt :=
  connect_mcp_server ⟨[⟨"local1", false, ""⟩], ⟨[], []⟩, [], false, false, "NEXT", []⟩
    "u" "s" ["t"]

/-- C8: counterexample to the claim as stated: on an agent with an open
session but `_initialized` unset, the first `cleanup` call does not close
the open remote-server session. -/
theorem cleanup_skips_uninitialized_cex :
    c8CexSt.mcp.sessions = ["s"] ∧ (cleanup c8CexSt).mcp.sessions = ["s"] := by
  decide

/-- C8: an initialized agent with one connected server. -/
def c8WitSt : AgentSt :=
  ⟨[⟨"local1", false, ""⟩, ⟨"ot", true, "other"⟩],
    ⟨["other"], [⟨"ot", true, "other"⟩]⟩,
    [("other", "u0")], true, false, "NEXT", []⟩

/-- C8: witness instantiating the amended theorem on an initialized
agent, with the initialization hypothesis discharged. -/
theorem cleanup_idempotent_witness :
    cleanup (cleanup c8WitSt) = cleanup c8WitSt
    ∧ (cleanup c8WitSt).browserReleased = true
    ∧ (cleanup c8WitSt).mcp.sessions = [] :=
  ⟨(cleanup_idempotent_and_closes c8WitSt).1,
   (cleanup_idempotent_and_closes c8WitSt).2.1,
   ((cleanup_idempotent_and_closes c8WitSt).2.2 rfl).1⟩

/-! ### Claims C4 and C10 -/

theorem connect_prompt (st : AgentSt) (url sid : String) (adv : List String) :
    (connect_mcp_server st url sid adv).next_step_prompt = st.next_step_prompt := rfl

theorem attemptStep_prompt (st : AgentSt) (cfg : ServerConfig) :
    (attemptStep st cfg).next_step_prompt = st.next_step_prompt := by
  rcases cfg with ⟨id, kind, url, command, args, outcome⟩
  cases kind <;> cases outcome <;> cases url <;> cases command <;> rfl

theorem initialize_prompt (cfg : List ServerConfig) (st : AgentSt) :
    (initialize_mcp_servers cfg st).next_step_prompt = st.next_step_prompt := by
  induction cfg generalizing st with
  | nil => rfl
  | cons c rest ih =>
    have step : initialize_mcp_servers (c :: rest) st
        = initialize_mcp_servers rest (attemptStep st c) := rfl
    rw [step, ih, attemptStep_prompt]

theorem lazyInit_prompt (cfg : List ServerConfig) (st : AgentSt) :
    (lazyInit cfg st).next_step_prompt = st.next_step_prompt := by
  unfold lazyInit
  split
  · rfl
  · exact initialize_prompt cfg st

/-- C4: `think` restores the original next-step prompt before returning,
for every inner inference step (so the substitution cannot leak into a
subsequent step), and the inner inference step is invoked on the
augmented prompt exactly when a tool invocation among the last 3 memory
entries names the browser tool, and on the unchanged prompt otherwise
(`lazyInit_prompt`: lazy initialization leaves the prompt untouched). -/
theorem think_prompt_scoped (cfg : List ServerConfig) (aug : String)
    (inner : AgentSt → AgentSt × Bool) (st : AgentSt) :
    (think cfg aug inner st).1.next_step_prompt = st.next_step_prompt
    ∧ think cfg aug inner st
        = (let stI := if browserInUse (lazyInit cfg st)
              then { lazyInit cfg st with next_step_prompt := aug }
              else lazyInit cfg st
           ({ (inner stI).1 with next_step_prompt := st.next_step_prompt },
             (inner stI).2)) := by
  constructor
  · simp [think, lazyInit_prompt]
  · simp only [think, lazyInit_prompt]

/-- C10: after a `think` call on a not-yet-initialized agent (for any
inner inference step that does not touch the initialization flag or the
MCP client), the initialized flag is set, the MCP state is exactly the
result of attempting the configured servers, and a subsequent lazy
initialization is a no-op, so initialization runs at most once. -/
theorem think_initializes_once (cfg : List ServerConfig) (aug : String)
    (inner : AgentSt → AgentSt × Bool) (st : AgentSt)
    (h0 : st.initialized = false)
    (hpres : ∀ s, (inner s).1.initialized = s.initialized ∧ (inner s).1.mcp = s.mcp) :
    (think cfg aug inner st).1.initialized = true
    ∧ (think cfg aug inner st).1.mcp = (initialize_mcp_servers cfg st).mcp
    ∧ lazyInit cfg (think cfg aug inner st).1 = (think cfg aug inner st).1 := by
  have hlz : lazyInit cfg st = { initialize_mcp_servers cfg st with initialized := true } := by
    unfold lazyInit
    rw [h0]
    simp
  have hinit : (think cfg aug inner st).1.initialized = true := by
    simp only [think]
    rw [(hpres _).1]
    split <;> rw [hlz]
  have hmcp : (think cfg aug inner st).1.mcp = (initialize_mcp_servers cfg st).mcp := by
    simp only [think]
    rw [(hpres _).2]
    split <;> rw [hlz]
  refine ⟨hinit, hmcp, ?_⟩
  unfold lazyInit
  rw [hinit]
  simp

/-- C10: a reachable configured server for the witness run. -/
def c10Cfg : ServerConfig :=
  ⟨"g", TransportKind.sse, some "u", none, [], Except.ok ["t"]⟩

/-- C10: a fresh, never-initialized agent for the witness run. -/
def c10St : AgentSt :=
  ⟨[⟨"local1", false, ""⟩], ⟨[], []⟩, [], false, false, "NEXT", []⟩

/-- C10: witness instantiating the theorem at a concrete first `think`. -/
theorem think_initializes_once_witness :
    (think [c10Cfg] "AUG" (fun s => (s, true)) c10St).1.initialized = true
    ∧ (think [c10Cfg] "AUG" (fun s => (s, true)) c10St).1.mcp
        = (initialize_mcp_servers [c10Cfg] c10St).mcp
    ∧ lazyInit [c10Cfg] (think [c10Cfg] "AUG" (fun s => (s, true)) c10St).1
        = (think [c10Cfg] "AUG" (fun s => (s, true)) c10St).1 :=
  think_initializes_once [c10Cfg] "AUG" (fun s => (s, true)) c10St rfl
    (fun _ => ⟨rfl, rfl⟩)

/-! ### Claim C9 -/

/-- C9: `Summary.execute` never raises to its caller: it is a total
function; it returns extracted message content only for a 200 response
with a well-formed body (first conjunct), returns the empty result on any
non-200 status (second conjunct) and on a raised request (third
conjunct); a 200 response whose body is malformed also yields the empty
result (contrapositive of the first conjunct). -/
theorem summary_never_raises (o : HttpOutcome) :
    (∀ s, summaryExecute o = some s →
      ∃ b c rest, o = HttpOutcome.response 200 (some b)
        ∧ b.choices = c :: rest ∧ s = c.message.content)
    ∧ (∀ status body, o = HttpOutcome.response status body → status ≠ 200 →
        summaryExecute o = none)
    ∧ (∀ e, o = HttpOutcome.failure e → summaryExecute o = none) := by
  refine ⟨?_, ?_, ?_⟩
  · intro s hs
    cases o with
    | failure e => simp [summaryExecute] at hs
    | response status body =>
      unfold summaryExecute at hs
      dsimp only at hs
      split_ifs at hs with h200
      · cases body with
        | none => simp at hs
        | some b =>
          dsimp only at hs
          cases hc : b.choices with
          | nil => rw [hc] at hs; simp at hs
          | cons c rest =>
            rw [hc] at hs
            simp only [Option.some.injEq] at hs
            exact ⟨b, c, rest, by rw [h200], hc, hs.symm⟩
  · intro status body ho h200
    subst ho
    unfold summaryExecute
    dsimp only
    rw [if_neg h200]
  · intro e ho
    subst ho
    rfl

/-- C9: a well-formed 200 response body for the witness. -/
def c9Body : ApiBody := ⟨[⟨⟨"answer"⟩⟩]⟩

/-- C9: witness instantiating the theorem at a non-200 response and at a
raised request. -/
theorem summary_never_raises_witness :
    summaryExecute (HttpOutcome.response 404 (some c9Body)) = none
    ∧ summaryExecute (HttpOutcome.failure "timeout") = none :=
  ⟨(summary_never_raises (HttpOutcome.response 404 (some c9Body))).2.1 404
      (some c9Body) rfl (by decide),
   (summary_never_raises (HttpOutcome.failure "timeout")).2.2 "timeout" rfl⟩

end OpenManus
